import Mathlib

/-!
Verification development for the mailbox-maintenance server
(`proton-email-server.py`).  The Python functions relevant to the frozen
claims are shallowly embedded as executable Lean definitions: the
persisted rule store becomes an explicit `List Rule` threaded through the
store operations, the IMAP transport becomes oracle functions supplied as
parameters, and regular-expression search is implemented by a small
Brzozowski-derivative matcher over the exact pattern lists of the source.
-/

namespace ProtonEmail

/-! ## Basic string helpers -/

/-- Python substring containment `needle in hay` (both already strings). -/
def strContains (hay needle : String) : Bool :=
  decide (needle.toList <:+: hay.toList)

/-- Python `str.lower()` (character-wise; the inputs handled by the claims
are ASCII).  Implemented over the character list so that it evaluates
inside the kernel. -/
def strLower (s : String) : String :=
  String.mk (s.toList.map Char.toLower)

/-- Python slicing `s[:n]` by code points. -/
def strTake (s : String) (n : Nat) : String :=
  String.mk (s.toList.take n)

/-- Python `str.count(c)` for a single character. -/
def countChar (c : Char) (s : String) : Nat :=
  (s.toList.filter (fun x => x == c)).length

/-- Count of ASCII uppercase characters, modelling
`sum(1 for c in subject if c.isupper())` over the ASCII inputs considered. -/
def countUpper (s : String) : Nat :=
  (s.toList.filter Char.isUpper).length

/-! ## Rule store

Embeds the JSON rule objects handled by `load_filter_rules` /
`save_filter_rules`.  Python dict values occurring in a rule's `actions`
mapping are either strings or booleans; `AVal` covers both, with Python
truthiness. -/

inductive AVal where
  | str (s : String)
  | bool (b : Bool)
deriving DecidableEq, Repr

/-- Python truthiness of an action value (empty string and `False` are falsy). -/
def AVal.truthy : AVal → Bool
  | .str s => !(s == "")
  | .bool b => b

structure Rule where
  id : String
  name : String
  conditions : List (String × String)
  actions : List (String × AVal)
  enabled : Bool
  created_at : String
  last_applied : Option String
  emails_processed : Nat
deriving DecidableEq, Repr

/-- The closed condition enumeration of `create_filter_rule`. -/
def valid_conditions : List String :=
  ["from", "to", "subject_contains", "subject_equals", "body_contains",
   "sender_domain", "has_attachments", "older_than_days", "newer_than_days"]

/-- The closed action enumeration of `create_filter_rule`. -/
def valid_actions : List String :=
  ["move_to_folder", "mark_as_read", "mark_as_important", "delete",
   "forward_to", "auto_reply"]

/-- Embedding of `create_filter_rule`.  The persisted store appears as the
explicit argument `rules` (the list `load_filter_rules` would return) and
the second component of the result is the store content after the call
(`save_filter_rules` is the file write, abstracted to the list itself).
`now` stands for `datetime.now().isoformat()`. -/
def create_filter_rule (rule_name : String) (conditions : List (String × String))
    (actions : List (String × AVal)) (enabled : Bool) (now : String)
    (rules : List Rule) : Bool × List Rule :=
  if rules.any (fun r => r.name == rule_name) then
    (false, rules)
  else if conditions.any (fun c => !(valid_conditions.contains c.1)) then
    (false, rules)
  else if actions.any (fun a => !(valid_actions.contains a.1)) then
    (false, rules)
  else
    (true, rules ++ [{ id := toString (rules.length + 1), name := rule_name,
                       conditions := conditions, actions := actions,
                       enabled := enabled, created_at := now,
                       last_applied := none, emails_processed := 0 }])

/-- Embedding of `delete_filter_rule`: drop every rule whose id equals
`rule_id`; report `False` and leave the store untouched when nothing was
dropped. -/
def delete_filter_rule (rule_id : String) (rules : List Rule) : Bool × List Rule :=
  let updated_rules := rules.filter (fun r => !(r.id == rule_id))
  if updated_rules.length == rules.length then
    (false, rules)
  else
    (true, updated_rules)

/-! ## Message records and rule matching -/

/-- The hydrated message record produced by the batch fetcher (the keys of
the Python dict become fields; the `from` key is called `from_addr` since
`from` is reserved in Lean). -/
structure Email where
  id : String := ""
  subject : String := ""
  from_addr : String := ""
  to_addr : String := ""
  date : String := ""
  body : String := ""
deriving DecidableEq, Repr

/-- One condition check of `email_matches_rule`.  Unimplemented kinds
(`has_attachments`, `older_than_days`, `newer_than_days`) and unknown kinds
fall through the if/elif chain and therefore pass. -/
def cond_holds (email_data : Email) (c : String × String) : Bool :=
  let condition := c.1
  let value := c.2
  if condition == "from" then
    strContains (strLower email_data.from_addr) (strLower value)
  else if condition == "to" then
    strContains (strLower email_data.to_addr) (strLower value)
  else if condition == "subject_contains" then
    strContains (strLower email_data.subject) (strLower value)
  else if condition == "subject_equals" then
    strLower value == strLower email_data.subject
  else if condition == "body_contains" then
    strContains (strLower email_data.body) (strLower value)
  else if condition == "sender_domain" then
    let sender := email_data.from_addr
    let domain := if strContains sender "@" then (sender.splitOn "@").getLastD "" else ""
    strLower value == strLower domain
  else
    true

/-- Embedding of `email_matches_rule`: conjunction over the condition
mapping, short-circuiting exactly like the Python loop. -/
def email_matches_rule (email_data : Email) (rule : Rule) : Bool :=
  rule.conditions.all (cond_holds email_data)

end ProtonEmail

namespace ProtonEmail

/-! ## Claims about the rule store -/

/-- Claim C9: a rule whose conditions mapping is empty matches every
message record: `email_matches_rule` returns `True` vacuously. -/
theorem empty_conditions_match (email_data : Email) (rule : Rule)
    (h : rule.conditions = []) : email_matches_rule email_data rule = true := by
  simp [email_matches_rule, h]

/-- Witness for C9 at a concrete record and rule. -/
theorem empty_conditions_match_witness :
    email_matches_rule { id := "1", subject := "hello" }
      { id := "1", name := "all", conditions := [], actions := [],
        enabled := true, created_at := "t", last_applied := none,
        emails_processed := 0 } = true :=
  empty_conditions_match _ _ rfl

/-- Claim C10: `delete_filter_rule` returns `False` and leaves the store
untouched when no rule bears the identifier; otherwise it returns `True`
and the store becomes exactly the previous list with every rule of that
identifier removed.  Stated without hypotheses as an exact description of
the result. -/
theorem delete_filter_rule_spec (rule_id : String) (rules : List Rule) :
    delete_filter_rule rule_id rules =
      (rules.any (fun r => r.id == rule_id),
       if rules.any (fun r => r.id == rule_id)
       then rules.filter (fun r => !(r.id == rule_id))
       else rules) := by
  unfold delete_filter_rule
  by_cases h : rules.any (fun r => r.id == rule_id)
  · have hlt : (rules.filter (fun r => !(r.id == rule_id))).length < rules.length := by
      rcases List.any_eq_true.mp h with ⟨r, hr, hid⟩
      apply List.length_filter_lt_length_iff_exists.mpr
      exact ⟨r, hr, by simp [hid]⟩
    simp only [h, if_pos]
    have : ((rules.filter (fun r => !(r.id == rule_id))).length == rules.length) = false := by
      simp [Nat.ne_of_lt hlt]
    simp [this]
  · have hall : ∀ r ∈ rules, ¬(r.id == rule_id) = true := by
      intro r hr
      intro hc
      exact h (List.any_eq_true.mpr ⟨r, hr, hc⟩)
    have hfilter : rules.filter (fun r => !(r.id == rule_id)) = rules := by
      apply List.filter_eq_self.mpr
      intro r hr
      simp [hall r hr]
    simp [h, hfilter]

/-- Claim C5: `create_filter_rule` fails and leaves the store untouched
when the name duplicates an existing rule, or any condition key is outside
the closed condition enumeration, or any action key is outside the closed
action enumeration. -/
theorem create_filter_rule_rejects (rule_name : String)
    (conditions : List (String × String)) (actions : List (String × AVal))
    (enabled : Bool) (now : String) (rules : List Rule)
    (h : (∃ r ∈ rules, r.name = rule_name)
       ∨ (∃ c ∈ conditions, c.1 ∉ valid_conditions)
       ∨ (∃ a ∈ actions, a.1 ∉ valid_actions)) :
    create_filter_rule rule_name conditions actions enabled now rules = (false, rules) := by
  unfold create_filter_rule
  rcases h with ⟨r, hr, hname⟩ | ⟨c, hc, hbad⟩ | ⟨a, ha, hbad⟩
  · have hd : rules.any (fun r => r.name == rule_name) = true :=
      List.any_eq_true.mpr ⟨r, hr, by simp [hname]⟩
    rw [if_pos hd]
  · have hanyc : conditions.any (fun c => !(valid_conditions.contains c.1)) = true := by
      refine List.any_eq_true.mpr ⟨c, hc, ?_⟩
      have hcc : valid_conditions.contains c.1 = false := by
        rw [Bool.eq_false_iff]
        intro hmem
        exact hbad (List.elem_iff.mp hmem)
      rw [hcc]
      rfl
    by_cases hdup : rules.any (fun r => r.name == rule_name) = true
    · rw [if_pos hdup]
    · rw [if_neg hdup, if_pos hanyc]
  · have hanya : actions.any (fun a => !(valid_actions.contains a.1)) = true := by
      refine List.any_eq_true.mpr ⟨a, ha, ?_⟩
      have hcc : valid_actions.contains a.1 = false := by
        rw [Bool.eq_false_iff]
        intro hmem
        exact hbad (List.elem_iff.mp hmem)
      rw [hcc]
      rfl
    by_cases hdup : rules.any (fun r => r.name == rule_name) = true
    · rw [if_pos hdup]
    · by_cases hcond : conditions.any (fun c => !(valid_conditions.contains c.1)) = true
      · rw [if_neg hdup, if_pos hcond]
      · rw [if_neg hdup, if_neg hcond, if_pos hanya]

/-- Witness for C5: a create with an invalid action key is rejected and the
store is unchanged. -/
theorem create_filter_rule_rejects_witness :
    create_filter_rule "spam" [("from", "a@b.c")] [("explode", .bool true)]
      true "t" [] = (false, []) :=
  create_filter_rule_rejects "spam" [("from", "a@b.c")] [("explode", .bool true)]
    true "t" []
    (Or.inr (Or.inr ⟨("explode", .bool true), by decide, by decide⟩))

/-- The four-step operation sequence of claim C4: two creates, a delete of
the first rule, then a third create, starting from the empty store. -/
def c4_sequence : List Rule :=
  let s1 := (create_filter_rule "A" [] [] true "t1" []).2
  let s2 := (create_filter_rule "B" [] [] true "t2" s1).2
  let s3 := (delete_filter_rule "1" s2).2
  (create_filter_rule "C" [] [] true "t3" s3).2

/-- Claim C4 fails on the code: after create A, create B, delete rule "1",
create C, the surviving rules B and C both carry identifier "2", because
`create_filter_rule` assigns `str(len(rules) + 1)` rather than a monotonic
counter.  Every step of the sequence succeeds. -/
theorem create_after_delete_collides :
    (c4_sequence.map Rule.id = ["2", "2"]
      ∧ c4_sequence.map Rule.name = ["B", "C"])
      ∧ ¬ (c4_sequence.map Rule.id).Nodup := by
  constructor
  · constructor <;> rfl
  · decide

end ProtonEmail

namespace ProtonEmail

/-! ## Action aggregation of the rule engine

Embeds the `bulk_actions` accumulation loop shared verbatim by
`apply_filter_rules` and `apply_filter_rules_to_chunk`: for every
(message, rule) pair in document order, on match, each action of the rule
queues the message id into the per-action-kind structure. -/

structure BulkActions where
  move_to_folder : List (AVal × List String)
  mark_as_read : List String
  mark_as_important : List String
  delete : List String
deriving DecidableEq, Repr

def initBulkActions : BulkActions := ⟨[], [], [], []⟩

/-- Appending an id under a target-folder key of the ordered
`move_to_folder` dictionary (creating the key on first use). -/
def addMove (folder : AVal) (email_id : String) :
    List (AVal × List String) → List (AVal × List String)
  | [] => [(folder, [email_id])]
  | (f, ids) :: rest =>
    if f == folder then (f, ids ++ [email_id]) :: rest
    else (f, ids) :: addMove folder email_id rest

/-- One iteration of the `for action, value in actions.items()` loop. -/
def queue_action (email_id : String) (ba : BulkActions) (a : String × AVal) :
    BulkActions :=
  if a.1 == "move_to_folder" && a.2.truthy then
    { ba with move_to_folder := addMove a.2 email_id ba.move_to_folder }
  else if a.1 == "mark_as_read" && a.2.truthy then
    { ba with mark_as_read := ba.mark_as_read ++ [email_id] }
  else if a.1 == "mark_as_important" && a.2.truthy then
    { ba with mark_as_important := ba.mark_as_important ++ [email_id] }
  else if a.1 == "delete" && a.2.truthy then
    { ba with delete := ba.delete ++ [email_id] }
  else ba

/-- The `for rule in rules` loop body for one hydrated message. -/
def apply_rules_to_email (rules : List Rule) (email_id : String) (e : Email)
    (ba : BulkActions) : BulkActions :=
  rules.foldl
    (fun ba rule =>
      if email_matches_rule e rule then rule.actions.foldl (queue_action email_id) ba
      else ba) ba

/-- The aggregation phase of `apply_filter_rules_to_chunk` (and of
`apply_filter_rules`): fold the queueing loop over the hydrated messages
in document order.  `emails` is the item list of the `full_emails` dict. -/
def apply_filter_rules_to_chunk (emails : List (String × Email))
    (rules : List Rule) : BulkActions :=
  emails.foldl (fun ba p => apply_rules_to_email rules p.1 p.2 ba) initBulkActions

/-- Selector for the three plain id-list aggregation fields. -/
def BulkActions.idList (ba : BulkActions) (k : String) : List String :=
  if k == "mark_as_read" then ba.mark_as_read
  else if k == "mark_as_important" then ba.mark_as_important
  else ba.delete

/-- Number of entries of the action mapping with key `k` and a truthy
value (for a Python dict this is 0 or 1). -/
def action_weight (k : String) (acts : List (String × AVal)) : Nat :=
  (acts.filter (fun a => a.1 == k && a.2.truthy)).length

/-- Total number of (matching rule, truthy `k` action) pairs for one
message. -/
def matched_count (k : String) (rules : List Rule) (e : Email) : Nat :=
  ((rules.filter (fun r => email_matches_rule e r)).map
    (fun r => action_weight k r.actions)).sum

theorem queue_action_idList (email_id : String) (ba : BulkActions)
    (a : String × AVal) (k : String)
    (hk : k = "mark_as_read" ∨ k = "mark_as_important" ∨ k = "delete") :
    (queue_action email_id ba a).idList k =
      ba.idList k ++ (if a.1 == k && a.2.truthy then [email_id] else []) := by
  unfold queue_action
  rcases hk with rfl | rfl | rfl <;>
    · split_ifs with h1 h2 h3 h4 <;> simp_all [BulkActions.idList]

theorem fold_actions_idList (email_id : String) (acts : List (String × AVal))
    (ba : BulkActions) (k : String)
    (hk : k = "mark_as_read" ∨ k = "mark_as_important" ∨ k = "delete") :
    (acts.foldl (queue_action email_id) ba).idList k =
      ba.idList k ++ List.replicate (action_weight k acts) email_id := by
  induction acts generalizing ba with
  | nil => simp [action_weight]
  | cons a rest ih =>
    rw [List.foldl_cons, ih]
    rw [queue_action_idList email_id ba a k hk]
    by_cases h : (a.1 == k && a.2.truthy) = true
    · simp [action_weight, List.filter_cons, h, List.replicate_succ]
    · simp [action_weight, List.filter_cons, h]

theorem apply_rules_idList (rules : List Rule) (email_id : String) (e : Email)
    (ba : BulkActions) (k : String)
    (hk : k = "mark_as_read" ∨ k = "mark_as_important" ∨ k = "delete") :
    (apply_rules_to_email rules email_id e ba).idList k =
      ba.idList k ++ List.replicate (matched_count k rules e) email_id := by
  induction rules generalizing ba with
  | nil => simp [apply_rules_to_email, matched_count]
  | cons r rest ih =>
    simp only [apply_rules_to_email] at ih ⊢
    rw [List.foldl_cons]
    by_cases h : email_matches_rule e r = true
    · have hmc : matched_count k (r :: rest) e
          = action_weight k r.actions + matched_count k rest e := by
        unfold matched_count
        simp only [List.filter_cons, h, if_true, List.map_cons, List.sum_cons]
      rw [if_pos h, ih, fold_actions_idList email_id r.actions ba k hk, hmc,
        List.replicate_add, List.append_assoc]
    · have hf : email_matches_rule e r = false := Bool.eq_false_iff.mpr h
      have hmc : matched_count k (r :: rest) e = matched_count k rest e := by
        unfold matched_count
        simp only [List.filter_cons, hf, Bool.false_eq_true, if_false]
      rw [if_neg h, ih, hmc]

theorem fold_emails_count_absent (emails : List (String × Email))
    (rules : List Rule) (ba : BulkActions) (k : String)
    (hk : k = "mark_as_read" ∨ k = "mark_as_important" ∨ k = "delete")
    (M : String) (habs : M ∉ emails.map Prod.fst) :
    ((emails.foldl (fun ba p => apply_rules_to_email rules p.1 p.2 ba) ba).idList k).count M
      = (ba.idList k).count M := by
  induction emails generalizing ba with
  | nil => simp
  | cons p rest ih =>
    have hne : p.1 ≠ M := by
      intro hc
      exact habs (by simp [hc])
    have habs' : M ∉ rest.map Prod.fst := fun hc => habs (by simp [hc])
    rw [List.foldl_cons, ih _ habs']
    rw [apply_rules_idList rules p.1 p.2 ba k hk]
    simp [List.count_append, List.count_replicate, hne]

theorem fold_emails_count (emails : List (String × Email)) (rules : List Rule)
    (ba : BulkActions) (k : String)
    (hk : k = "mark_as_read" ∨ k = "mark_as_important" ∨ k = "delete")
    (M : String) (e : Email) (hnd : (emails.map Prod.fst).Nodup)
    (hmem : (M, e) ∈ emails) :
    ((emails.foldl (fun ba p => apply_rules_to_email rules p.1 p.2 ba) ba).idList k).count M
      = (ba.idList k).count M + matched_count k rules e := by
  induction emails generalizing ba with
  | nil => cases hmem
  | cons p rest ih =>
    rw [List.map_cons, List.nodup_cons] at hnd
    rcases List.mem_cons.mp hmem with heq | hrest
    · have hM : p.1 = M := by rw [← heq]
      have hE : p.2 = e := by rw [← heq]
      have habs : M ∉ rest.map Prod.fst := by
        rw [← hM]
        exact hnd.1
      rw [List.foldl_cons,
        fold_emails_count_absent rest rules _ k hk M habs,
        apply_rules_idList rules p.1 p.2 ba k hk, hM, hE]
      simp [List.count_append, List.count_replicate]
    · have hne : p.1 ≠ M := by
        intro hc
        exact hnd.1 (hc ▸ (List.mem_map.mpr ⟨(M, e), hrest, rfl⟩))
      rw [List.foldl_cons, ih _ hnd.2 hrest,
        apply_rules_idList rules p.1 p.2 ba k hk]
      simp [List.count_append, List.count_replicate, hne]

/-- Claim C1 (amended): in the aggregation of
`apply_filter_rules_to_chunk` (and `apply_filter_rules`), a hydrated
message M appears in the `mark_as_read` / `mark_as_important` / `delete`
id list once per (matching rule, truthy action) pair — accumulation is
additive per match, not deduplicated, so two matching rules yield two
occurrences. -/
theorem aggregation_counts (emails : List (String × Email)) (rules : List Rule)
    (k : String)
    (hk : k = "mark_as_read" ∨ k = "mark_as_important" ∨ k = "delete")
    (M : String) (e : Email) (hnd : (emails.map Prod.fst).Nodup)
    (hmem : (M, e) ∈ emails) :
    ((apply_filter_rules_to_chunk emails rules).idList k).count M
      = matched_count k rules e := by
  unfold apply_filter_rules_to_chunk
  rw [fold_emails_count emails rules initBulkActions k hk M e hnd hmem]
  rcases hk with rfl | rfl | rfl <;> simp [initBulkActions, BulkActions.idList]

def c1_email : Email := { id := "7" }

def c1_rule1 : Rule :=
  { id := "1", name := "r1", conditions := [],
    actions := [("mark_as_read", .bool true)], enabled := true,
    created_at := "t", last_applied := none, emails_processed := 0 }

def c1_rule2 : Rule :=
  { id := "2", name := "r2", conditions := [],
    actions := [("mark_as_read", .bool true)], enabled := true,
    created_at := "t", last_applied := none, emails_processed := 0 }

/-- Counterexample to claim C1 as stated: two distinct enabled rules both
match message "7" and both specify `mark_as_read`, and the aggregated
`mark_as_read` list contains "7" twice, not once. -/
theorem mark_as_read_not_deduplicated :
    c1_rule1 ≠ c1_rule2 ∧ c1_rule1.enabled = true ∧ c1_rule2.enabled = true
      ∧ email_matches_rule c1_email c1_rule1 = true
      ∧ email_matches_rule c1_email c1_rule2 = true
      ∧ (apply_filter_rules_to_chunk [("7", c1_email)] [c1_rule1, c1_rule2]).mark_as_read
          = ["7", "7"] := by
  refine ⟨by decide, rfl, rfl, rfl, rfl, rfl⟩

/-- Witness for the amended C1 theorem at a concrete chunk. -/
theorem aggregation_counts_witness :
    ([("9", c1_email)].map Prod.fst).Nodup ∧ ("9", c1_email) ∈ [("9", c1_email)]
      ∧ ((apply_filter_rules_to_chunk [("9", c1_email)] [c1_rule1, c1_rule2]).idList
          "mark_as_read").count "9" = matched_count "mark_as_read" [c1_rule1, c1_rule2] c1_email :=
  ⟨by decide, by decide,
    aggregation_counts [("9", c1_email)] [c1_rule1, c1_rule2] "mark_as_read"
      (Or.inl rfl) "9" c1_email (by decide) (by decide)⟩

end ProtonEmail

namespace ProtonEmail

/-! ## Spam classifier

Embeds `is_junk_email`.  The `re.search` calls are implemented by a
Brzozowski-derivative matcher over abstract-syntax values that transcribe
the exact pattern strings of the source (`.` is any character except a
newline, `|` is alternation, `.*` is a star over `.`, and a trailing `$`
anchors the match at the end of the input; an unanchored search embeds the
pattern between paddings that accept arbitrary characters). -/

inductive RE where
  | nul
  | eps
  | ch (c : Char)
  | dot
  | anyc
  | seq (a b : RE)
  | alt (a b : RE)
  | star (a : RE)
deriving DecidableEq, Repr

/-- Smart sequencing (collapses the failure and empty regexes). -/
def mseq : RE → RE → RE
  | .nul, _ => .nul
  | _, .nul => .nul
  | .eps, b => b
  | a, .eps => a
  | a, b => .seq a b

/-- Smart alternation. -/
def malt : RE → RE → RE
  | .nul, b => b
  | a, .nul => a
  | a, b => .alt a b

def RE.nullable : RE → Bool
  | .nul => false
  | .eps => true
  | .ch _ => false
  | .dot => false
  | .anyc => false
  | .seq a b => a.nullable && b.nullable
  | .alt a b => a.nullable || b.nullable
  | .star _ => true

def RE.deriv : RE → Char → RE
  | .nul, _ => .nul
  | .eps, _ => .nul
  | .ch c, x => if x = c then .eps else .nul
  | .dot, x => if x = '\n' then .nul else .eps
  | .anyc, _ => .eps
  | .seq a b, x =>
    if a.nullable then malt (mseq (a.deriv x) b) (b.deriv x)
    else mseq (a.deriv x) b
  | .alt a b, x => malt (a.deriv x) (b.deriv x)
  | .star a, x => mseq (a.deriv x) (.star a)

/-- Whole-input matching by iterated derivatives. -/
def matchList : RE → List Char → Bool
  | r, [] => r.nullable
  | r, c :: cs => matchList (r.deriv c) cs

/-- Literal character sequence. -/
def lit (s : String) : RE :=
  s.toList.foldr (fun c r => RE.seq (RE.ch c) r) RE.eps

/-- The `.*` of the source patterns. -/
def dstar : RE := RE.star RE.dot

def cat (l : List RE) : RE := l.foldr RE.seq RE.eps

/-- One source pattern: its original text (reused in the indicator
strings), its abstract syntax, and whether it ends in a `$` anchor. -/
structure Pat where
  src : String
  re : RE
  anchored : Bool := false
deriving Repr

/-- Python `re.search`: an anchored pattern must match a suffix, an
unanchored one any infix. -/
def Pat.search (p : Pat) (s : String) : Bool :=
  if p.anchored then matchList (RE.seq (RE.star RE.anyc) p.re) s.toList
  else matchList (RE.seq (RE.seq (RE.star RE.anyc) p.re) (RE.star RE.anyc)) s.toList

def spam_subject_patterns : List Pat :=
  [{ src := "urgent.*action.*required",
     re := cat [lit "urgent", dstar, lit "action", dstar, lit "required"] },
   { src := "congratulations.*won", re := cat [lit "congratulations", dstar, lit "won"] },
   { src := "free.*money|money.*free",
     re := RE.alt (cat [lit "free", dstar, lit "money"]) (cat [lit "money", dstar, lit "free"]) },
   { src := "limited.*time.*offer", re := cat [lit "limited", dstar, lit "time", dstar, lit "offer"] },
   { src := "act.*now|click.*here",
     re := RE.alt (cat [lit "act", dstar, lit "now"]) (cat [lit "click", dstar, lit "here"]) },
   { src := "viagra|cialis|pharmacy",
     re := RE.alt (lit "viagra") (RE.alt (lit "cialis") (lit "pharmacy")) },
   { src := "increase.*size", re := cat [lit "increase", dstar, lit "size"] },
   { src := "lose.*weight.*fast", re := cat [lit "lose", dstar, lit "weight", dstar, lit "fast"] },
   { src := "make.*money.*fast", re := cat [lit "make", dstar, lit "money", dstar, lit "fast"] },
   { src := "nigerian.*prince", re := cat [lit "nigerian", dstar, lit "prince"] },
   { src := "tax.*refund", re := cat [lit "tax", dstar, lit "refund"] },
   { src := "security.*alert", re := cat [lit "security", dstar, lit "alert"] },
   { src := "re:.*re:.*re:", re := cat [lit "re:", dstar, lit "re:", dstar, lit "re:"] }]

def suspicious_sender_patterns : List Pat :=
  [{ src := "noreply@.*\\.tk$", re := cat [lit "noreply@", dstar, lit ".tk"], anchored := true },
   { src := ".*@.*\\.ml$", re := cat [dstar, lit "@", dstar, lit ".ml"], anchored := true },
   { src := ".*@.*\\.ga$", re := cat [dstar, lit "@", dstar, lit ".ga"], anchored := true },
   { src := "admin@.*", re := cat [lit "admin@", dstar] },
   { src := "support@.*", re := cat [lit "support@", dstar] },
   { src := "security@.*", re := cat [lit "security@", dstar] }]

def spam_body_patterns : List Pat :=
  [{ src := "click.*here.*now", re := cat [lit "click", dstar, lit "here", dstar, lit "now"] },
   { src := "urgent.*respond", re := cat [lit "urgent", dstar, lit "respond"] },
   { src := "verify.*account.*immediately",
     re := cat [lit "verify", dstar, lit "account", dstar, lit "immediately"] },
   { src := "suspended.*account", re := cat [lit "suspended", dstar, lit "account"] },
   { src := "winner.*lottery", re := cat [lit "winner", dstar, lit "lottery"] },
   { src := "inheritance.*million", re := cat [lit "inheritance", dstar, lit "million"] },
   { src := "bitcoin.*investment", re := cat [lit "bitcoin", dstar, lit "investment"] },
   { src := "crypto.*opportunity", re := cat [lit "crypto", dstar, lit "opportunity"] }]

structure JunkResult where
  is_likely_junk : Bool
  junk_score : Nat
  likelihood : String
  indicators : List String
  email_id : String
deriving DecidableEq, Repr

/-- Embedding of `is_junk_email`.  The caps-check models the float test
`caps_ratio > 0.5` exactly as `2 * countUpper subject > subject.length`.
Note that, exactly as in the source, the caps-check runs on `subject`
AFTER it has been lowercased at the top of the function. -/
def is_junk_email (email_data : Email) : JunkResult :=
  let subject := strLower email_data.subject
  let from_addr := strLower email_data.from_addr
  let body := strLower email_data.body
  let acc0 : Nat × List String := (0, [])
  let acc1 := spam_subject_patterns.foldl (fun acc p =>
    if p.search subject then (acc.1 + 2, acc.2 ++ ["Suspicious subject pattern: " ++ p.src])
    else acc) acc0
  let acc2 := suspicious_sender_patterns.foldl (fun acc p =>
    if p.search from_addr then (acc.1 + 1, acc.2 ++ ["Suspicious sender pattern: " ++ p.src])
    else acc) acc1
  let acc3 := spam_body_patterns.foldl (fun acc p =>
    if p.search body then (acc.1 + 2, acc.2 ++ ["Suspicious body content: " ++ p.src])
    else acc) acc2
  let acc4 := if subject.length > 10 ∧ 2 * countUpper subject > subject.length then
      (acc3.1 + 1, acc3.2 ++ ["Excessive capital letters in subject"])
    else acc3
  let exclamation_count := countChar '!' subject + countChar '!' (strTake body 500)
  let acc5 := if exclamation_count > 3 then
      (acc4.1 + 1, acc4.2 ++ ["Excessive exclamation marks (" ++ toString exclamation_count ++ ")"])
    else acc4
  let junk_score := acc5.1
  let likelihood := if junk_score ≥ 4 then "high"
    else if junk_score ≥ 2 then "medium"
    else if junk_score ≥ 1 then "low"
    else "unlikely"
  { is_likely_junk := decide (junk_score ≥ 2), junk_score := junk_score,
    likelihood := likelihood, indicators := acc5.2, email_id := email_data.id }

/-- The failing input of claim C2. -/
def urgent_email : Email :=
  { id := "42", subject := "URGENT ACTION REQUIRED!!!!", from_addr := "", body := "" }

set_option maxRecDepth 8000 in
/-- Claim C2 is contradicted by the code (code bug): on subject
"URGENT ACTION REQUIRED!!!!" with empty sender and body the score is 3 and
the likelihood "medium", not at least 4 and "high" — the urgent pattern
contributes 2 and the four exclamation marks 1, but the all-caps indicator
can never fire because the subject is lowercased before the uppercase
count, so "Excessive capital letters in subject" is absent. -/
theorem urgent_subject_scores_medium :
    (is_junk_email urgent_email).junk_score = 3
      ∧ (is_junk_email urgent_email).likelihood = "medium"
      ∧ "Excessive capital letters in subject" ∉ (is_junk_email urgent_email).indicators
      ∧ (is_junk_email urgent_email).indicators =
          ["Suspicious subject pattern: urgent.*action.*required",
           "Excessive exclamation marks (4)"] := by
  decide

end ProtonEmail

namespace ProtonEmail

/-! ## Unsubscribe discovery

Embeds `find_unsubscribe_links`.  The two header regexes
`<mailto:([^>]+)>` and `<(https?://[^>]+)>` are implemented as direct
left-to-right scanners with the same semantics (find the opening literal,
capture the maximal nonempty run of characters other than the closing
angle bracket, require the bracket, continue after the match).  The
HTML-anchor and plain-text body patterns are the pluggable extractor the
specification explicitly treats as an external collaborator, so they enter
as function parameters; the surrounding structure (the startswith filter
on hrefs, the provenance tags, deduplication) is transcribed from the
source. -/

/-- Characters before the first occurrence of `stop`, plus the remainder
after it; `none` when `stop` never occurs. -/
def takeUpto (stop : Char) : List Char → Option (List Char × List Char)
  | [] => none
  | c :: rest =>
    if c = stop then some ([], rest)
    else
      match takeUpto stop rest with
      | some (cap, r) => some (c :: cap, r)
      | none => none

/-- Scanner for `<mailto:([^>]+)>` (fuel-bounded; the callers pass the
input length, which bounds the number of scan positions). -/
def scanMailto : Nat → List Char → List String
  | 0, _ => []
  | _ + 1, [] => []
  | fuel + 1, c :: rest =>
    if List.isPrefixOf "<mailto:".toList (c :: rest) then
      match takeUpto '>' (List.drop 8 (c :: rest)) with
      | some (cap, rest') =>
        if cap.isEmpty then scanMailto fuel rest
        else String.mk cap :: scanMailto fuel rest'
      | none => scanMailto fuel rest
    else scanMailto fuel rest

/-- Scanner for `<(https?://[^>]+)>`. -/
def scanHttp : Nat → List Char → List String
  | 0, _ => []
  | _ + 1, [] => []
  | fuel + 1, c :: rest =>
    if List.isPrefixOf "<https://".toList (c :: rest) then
      match takeUpto '>' (List.drop 9 (c :: rest)) with
      | some (cap, rest') =>
        if cap.isEmpty then scanHttp fuel rest
        else ("https://" ++ String.mk cap) :: scanHttp fuel rest'
      | none => scanHttp fuel rest
    else if List.isPrefixOf "<http://".toList (c :: rest) then
      match takeUpto '>' (List.drop 8 (c :: rest)) with
      | some (cap, rest') =>
        if cap.isEmpty then scanHttp fuel rest
        else ("http://" ++ String.mk cap) :: scanHttp fuel rest'
      | none => scanHttp fuel rest
    else scanHttp fuel rest

def parse_mailto (s : String) : List String := scanMailto s.toList.length s.toList

def parse_http (s : String) : List String := scanHttp s.toList.length s.toList

/-- One unsubscribe method dict.  Absent optional keys are modelled by
their Python-falsy defaults (`one_click` absent reads as `False` through
`.get('one_click', False)`; a missing `url` key is the empty string for
the purpose of the dedup key). -/
structure UMethod where
  type : String
  address : String := ""
  url : String := ""
  method : String
  one_click : Bool := false
  source : Option String := none
deriving DecidableEq, Repr

/-- The dedup identifier `method.get('url') or method.get('address')`. -/
def UMethod.dedup_key (m : UMethod) : String :=
  if m.url == "" then m.address else m.url

/-- First-occurrence-wins deduplication over the dedup key. -/
def dedup_methods : List UMethod → List String → List UMethod
  | [], _ => []
  | m :: rest, seen =>
    if seen.contains m.dedup_key then dedup_methods rest seen
    else m :: dedup_methods rest (m.dedup_key :: seen)

/-- The email dict produced by `get_bulk_emails_with_html` /
`get_full_email_with_html`, as consumed by `find_unsubscribe_links`. -/
structure UnsubEmail where
  id : String := ""
  subject : String := ""
  from_addr : String := ""
  to_addr : String := ""
  date : String := ""
  text_body : String := ""
  html_body : String := ""
  list_unsubscribe : String := ""
  list_unsubscribe_post : String := ""
deriving DecidableEq, Repr

structure UnsubResult where
  email_id : String
  subject : String
  from_addr : String
  unsubscribe_methods : List UMethod
  total_methods : Nat
  has_one_click : Bool
deriving DecidableEq, Repr

/-- Embedding of `find_unsubscribe_links`, parametrised by the body-link
extractors (`htmlExtract` stands for the HTML anchor-href patterns,
`textExtract` for the free-text patterns plus the inner URL search). -/
def find_unsubscribe_links (htmlExtract textExtract : String → List String)
    (email_data : UnsubEmail) : UnsubResult :=
  let header_methods : List UMethod :=
    if email_data.list_unsubscribe == "" then []
    else
      (parse_mailto email_data.list_unsubscribe).map
        (fun a => ({ type := "mailto", address := a, method := "email" } : UMethod))
      ++ (parse_http email_data.list_unsubscribe).map
        (fun u => ({ type := "http", url := u, method := "click" } : UMethod))
  let upgraded : List UMethod :=
    if !(email_data.list_unsubscribe_post == "")
        && strContains email_data.list_unsubscribe_post "List-Unsubscribe=One-Click" then
      header_methods.map (fun m =>
        if m.type == "http" then { m with one_click := true, method := "one_click" } else m)
    else header_methods
  let html_methods : List UMethod :=
    if !(email_data.html_body == "") then
      ((htmlExtract email_data.html_body).filter (fun u => u.startsWith "http")).map
        (fun u => ({ type := "http", url := u, method := "click",
                     source := some "html_body" } : UMethod))
    else []
  let text_methods : List UMethod :=
    (textExtract email_data.text_body).map
      (fun u => ({ type := "http", url := u, method := "click",
                   source := some "text_body" } : UMethod))
  let unique := dedup_methods (upgraded ++ html_methods ++ text_methods) []
  { email_id := email_data.id, subject := email_data.subject,
    from_addr := email_data.from_addr, unsubscribe_methods := unique,
    total_methods := unique.length,
    has_one_click := unique.any (fun m => m.one_click) }

theorem mem_of_mem_dedup (l : List UMethod) (seen : List String) (m : UMethod)
    (h : m ∈ dedup_methods l seen) : m ∈ l := by
  induction l generalizing seen with
  | nil => cases h
  | cons x rest ih =>
    unfold dedup_methods at h
    by_cases hs : (seen.contains x.dedup_key) = true
    · rw [if_pos hs] at h
      exact List.mem_cons_of_mem x (ih _ h)
    · rw [if_neg hs] at h
      rcases List.mem_cons.mp h with heq | htail
      · exact heq ▸ List.mem_cons_self x rest
      · exact List.mem_cons_of_mem x (ih _ htail)

/-- Claim C3 (amended): when the companion one-click header carries the
one-click marker, EVERY http entry parsed from the List-Unsubscribe header
is upgraded with the one-click flag (not only the first); entries
discovered later in the message bodies, and mailto entries, keep the flag
unset.  Thus in the result the flag is set exactly on the http entries of
header provenance. -/
theorem one_click_upgrades_all_header_http (hx tx : String → List String)
    (email_data : UnsubEmail)
    (hmark : strContains email_data.list_unsubscribe_post "List-Unsubscribe=One-Click" = true) :
    ∀ m ∈ (find_unsubscribe_links hx tx email_data).unsubscribe_methods,
      m.one_click = (m.type == "http" && m.source == none) := by
  have hpost : (!(email_data.list_unsubscribe_post == "")
      && strContains email_data.list_unsubscribe_post "List-Unsubscribe=One-Click") = true := by
    rw [hmark, Bool.and_true]
    cases hp : email_data.list_unsubscribe_post == ""
    · rfl
    · rw [eq_of_beq hp] at hmark
      exact absurd hmark (by decide)
  intro m hm
  unfold find_unsubscribe_links at hm
  simp only [hpost, if_true] at hm
  have hall := mem_of_mem_dedup _ _ _ hm
  rcases List.mem_append.mp hall with hht | htx
  · rcases List.mem_append.mp hht with hh | hhtml
    · rcases List.mem_map.mp hh with ⟨m₀, hm₀, rfl⟩
      by_cases hg : (email_data.list_unsubscribe == "") = true
      · rw [if_pos hg] at hm₀
        cases hm₀
      · rw [if_neg hg] at hm₀
        rcases List.mem_append.mp hm₀ with hmt | hmh
        · rcases List.mem_map.mp hmt with ⟨a, _, rfl⟩
          simp
        · rcases List.mem_map.mp hmh with ⟨u, _, rfl⟩
          simp
    · by_cases hg : (!(email_data.html_body == "")) = true
      · rw [if_pos hg] at hhtml
        rcases List.mem_map.mp hhtml with ⟨u, _, rfl⟩
        simp
      · rw [if_neg hg] at hhtml
        cases hhtml
  · rcases List.mem_map.mp htx with ⟨u, _, rfl⟩
    simp

def c3_email : UnsubEmail :=
  { id := "5",
    list_unsubscribe := "<https://a.example/u1>, <https://b.example/u2>",
    list_unsubscribe_post := "List-Unsubscribe=One-Click" }

def noExtract : String → List String := fun _ => []

set_option maxRecDepth 4000 in
/-- Counterexample to claim C3 as stated: with two http entries in the
List-Unsubscribe header and the one-click marker present, the SECOND entry
of the result also carries the one-click flag, not only the first. -/
theorem one_click_not_only_first :
    ((find_unsubscribe_links noExtract noExtract c3_email).unsubscribe_methods.map
        (fun m => (m.url, m.one_click)))
      = [("https://a.example/u1", true), ("https://b.example/u2", true)] := by
  decide

set_option maxRecDepth 4000 in
/-- Witness for the amended C3 theorem at a concrete header. -/
theorem one_click_upgrades_witness :
    strContains c3_email.list_unsubscribe_post "List-Unsubscribe=One-Click" = true
      ∧ ∀ m ∈ (find_unsubscribe_links noExtract noExtract c3_email).unsubscribe_methods,
          m.one_click = (m.type == "http" && m.source == none) :=
  ⟨by decide, one_click_upgrades_all_header_http noExtract noExtract c3_email (by decide)⟩

end ProtonEmail

namespace ProtonEmail

/-! ## Batch fetcher

Embeds `get_bulk_emails`.  The IMAP transport enters as two oracle
functions: `fb` answers a multi-id fetch with `none` for a raised
exception or `some (status, items)` for a returned response, where each
item is either a data tuple (`FItem.tup`, carrying the possibly-falsy raw
message bytes) or a non-tuple separator entry (`FItem.sep`, the closing
parenthesis line of the imaplib response); `fo` answers a single-id fetch
with `none` for an exception or `some (status, raw)` where the inner
option plus the emptiness check model the two Python truthiness guards.
The result dict maps each email id to the raw message it was built from
(the construction of the record from the raw bytes is the excluded MIME
decoding collaborator and preserves the key). -/

inductive FItem where
  | tup (raw : Option String)
  | sep
deriving DecidableEq, Repr

/-- Python dict assignment `emails[k] = v`: overwrite in place or append. -/
def dinsert (k v : String) : List (String × String) → List (String × String)
  | [] => [(k, v)]
  | (k', v') :: rest =>
    if k' == k then (k, v) :: rest else (k', v') :: dinsert k v rest

def keys (l : List (String × String)) : List String := l.map Prod.fst

/-- Contiguous chunks of size `n` (the slices of
`for i in range(0, len(ids), n)`), fuel-bounded by the list length. -/
def chunksGo (n : Nat) : Nat → List String → List (List String)
  | 0, _ => []
  | _ + 1, [] => []
  | fuel + 1, x :: xs => (x :: xs).take n :: chunksGo n fuel ((x :: xs).drop n)

def chunksOf (n : Nat) (l : List String) : List (List String) := chunksGo n l.length l

/-- The response-processing loop of the batched fetch.  The second
component records whether the Python loop raised (an out-of-range index in
`batch_ids[j // 2] if j % 2 == 1 else batch_ids[j]`), which the caller
turns into the per-item fallback; entries inserted before the raise are
kept, as the Python dict is mutated in place. -/
def processItems (bids : List String) :
    List FItem → Nat → List (String × String) → List (String × String) × Bool
  | [], _, acc => (acc, false)
  | .sep :: rest, j, acc => processItems bids rest (j + 1) acc
  | .tup none :: rest, j, acc => processItems bids rest (j + 1) acc
  | .tup (some raw) :: rest, j, acc =>
    if raw == "" then processItems bids rest (j + 1) acc
    else
      let idx := if j % 2 == 1 then j / 2 else j
      match bids.get? idx with
      | some email_id => processItems bids rest (j + 1) (dinsert email_id raw acc)
      | none => (acc, true)

/-- The per-item fallback loop (`except` branch of the batched fetch). -/
def fetch_individual (fo : String → Option (String × Option String))
    (bids : List String) (acc : List (String × String)) : List (String × String) :=
  bids.foldl (fun acc email_id =>
    match fo email_id with
    | none => acc
    | some (status, raw?) =>
      if status == "OK" then
        match raw? with
        | some raw => if raw == "" then acc else dinsert email_id raw acc
        | none => acc
      else acc) acc

/-- One batch of `get_bulk_emails`: try the multi-id fetch, process the
response, degrade to per-item fetching only when an exception was raised
(a non-OK status or empty response silently contributes nothing). -/
def process_batch (fb : List String → Option (String × List FItem))
    (fo : String → Option (String × Option String)) (bids : List String)
    (acc : List (String × String)) : List (String × String) :=
  match fb bids with
  | none => fetch_individual fo bids acc
  | some (status, items) =>
    if status == "OK" && !items.isEmpty then
      match processItems bids items 0 acc with
      | (acc', false) => acc'
      | (acc', true) => fetch_individual fo bids acc'
    else acc

/-- Embedding of `get_bulk_emails`.  `selectOK` is the status of the
mailbox selection. -/
def get_bulk_emails (selectOK : Bool)
    (fb : List String → Option (String × List FItem))
    (fo : String → Option (String × Option String))
    (email_ids : List String) (batch_size : Nat) : List (String × String) :=
  if email_ids.isEmpty then []
  else if selectOK then
    (chunksOf batch_size email_ids).foldl (fun acc b => process_batch fb fo b acc) []
  else []

/-- The well-formed imaplib response for one fetched message list: a data
tuple followed by a closing-parenthesis entry, per requested id. -/
def goodShape : List String → List FItem
  | [] => []
  | r :: rs => .tup (some r) :: .sep :: goodShape rs

end ProtonEmail

namespace ProtonEmail

theorem mem_keys_dinsert (k v : String) (l : List (String × String)) (a : String) :
    a ∈ keys (dinsert k v l) ↔ a = k ∨ a ∈ keys l := by
  induction l with
  | nil => simp [dinsert, keys]
  | cons p rest ih =>
    obtain ⟨k', v'⟩ := p
    unfold dinsert
    by_cases h : (k' == k) = true
    · rw [if_pos h]
      have hk : k' = k := eq_of_beq h
      subst hk
      simp only [keys, List.map_cons, List.mem_cons] at ih ⊢
      tauto
    · rw [if_neg h]
      simp only [keys, List.map_cons, List.mem_cons] at ih ⊢
      rw [ih]
      tauto

theorem processItems_subset (bids : List String) (items : List FItem) (j : Nat)
    (acc : List (String × String)) (a : String)
    (h : a ∈ keys (processItems bids items j acc).1) :
    a ∈ keys acc ∨ a ∈ bids := by
  induction items generalizing j acc with
  | nil => exact Or.inl h
  | cons it rest ih =>
    match it with
    | .sep => exact ih (j + 1) acc h
    | .tup none => exact ih (j + 1) acc h
    | .tup (some raw) =>
      unfold processItems at h
      by_cases hr : (raw == "") = true
      · rw [if_pos hr] at h
        exact ih (j + 1) acc h
      · rw [if_neg hr] at h
        simp only at h
        cases hg : bids.get? (if j % 2 == 1 then j / 2 else j) with
        | none =>
          rw [hg] at h
          exact Or.inl h
        | some email_id =>
          rw [hg] at h
          rcases ih (j + 1) (dinsert email_id raw acc) h with hin | hin
          · rcases (mem_keys_dinsert _ _ _ _).mp hin with rfl | hin'
            · exact Or.inr (List.get?_mem hg)
            · exact Or.inl hin'
          · exact Or.inr hin

theorem processItems_mono (bids : List String) (items : List FItem) (j : Nat)
    (acc : List (String × String)) (a : String) (h : a ∈ keys acc) :
    a ∈ keys (processItems bids items j acc).1 := by
  induction items generalizing j acc with
  | nil => exact h
  | cons it rest ih =>
    match it with
    | .sep => exact ih (j + 1) acc h
    | .tup none => exact ih (j + 1) acc h
    | .tup (some raw) =>
      unfold processItems
      by_cases hr : (raw == "") = true
      · rw [if_pos hr]
        exact ih (j + 1) acc h
      · rw [if_neg hr]
        simp only
        cases hg : bids.get? (if j % 2 == 1 then j / 2 else j) with
        | none => exact h
        | some email_id =>
          exact ih (j + 1) (dinsert email_id raw acc)
            ((mem_keys_dinsert _ _ _ _).mpr (Or.inr h))

theorem fetch_individual_subset (fo : String → Option (String × Option String))
    (bids : List String) (acc : List (String × String)) (a : String)
    (h : a ∈ keys (fetch_individual fo bids acc)) : a ∈ keys acc ∨ a ∈ bids := by
  induction bids generalizing acc with
  | nil => exact Or.inl h
  | cons id rest ih =>
    unfold fetch_individual at h
    rw [List.foldl_cons] at h
    have step := ih _ h
    rcases step with hin | hin
    · match hfo : fo id with
      | none =>
        simp only [hfo] at hin
        exact Or.inl hin
      | some (status, raw?) =>
        simp only [hfo] at hin
        by_cases hs : (status == "OK") = true
        · rw [if_pos hs] at hin
          match raw? with
          | some raw =>
            have hin' : a ∈ keys (if (raw == "") = true then acc else dinsert id raw acc) := hin
            by_cases hr : (raw == "") = true
            · rw [if_pos hr] at hin'
              exact Or.inl hin'
            · rw [if_neg hr] at hin'
              rcases (mem_keys_dinsert _ _ _ _).mp hin' with rfl | hk
              · exact Or.inr (List.mem_cons_self _ _)
              · exact Or.inl hk
          | none => exact Or.inl hin
        · rw [if_neg hs] at hin
          exact Or.inl hin
    · exact Or.inr (List.mem_cons_of_mem _ hin)

theorem fetch_individual_complete (fo : String → Option (String × Option String))
    (bids : List String) (acc : List (String × String)) (a : String)
    (hfo : ∀ id ∈ bids, ∃ raw, ¬(raw = "") ∧ fo id = some ("OK", some raw)) :
    a ∈ keys (fetch_individual fo bids acc) ↔ a ∈ keys acc ∨ a ∈ bids := by
  induction bids generalizing acc with
  | nil => simp [fetch_individual]
  | cons id rest ih =>
    unfold fetch_individual
    rw [List.foldl_cons]
    obtain ⟨raw, hraw, hid⟩ := hfo id (List.mem_cons_self _ _)
    have hr : (raw == "") = false := by
      cases hrr : raw == ""
      · rfl
      · exact absurd (eq_of_beq hrr) hraw
    simp only [hid, hr, Bool.false_eq_true, if_false, beq_self_eq_true, if_true]
    have ihr := ih (dinsert id raw acc) (fun i hi => hfo i (List.mem_cons_of_mem _ hi))
    unfold fetch_individual at ihr
    rw [ihr, mem_keys_dinsert, List.mem_cons]
    tauto

end ProtonEmail

namespace ProtonEmail

theorem processItems_goodShape_raises (bids : List String) :
    ∀ (rs : List String) (j : Nat) (acc : List (String × String)),
      rs ≠ [] → j % 2 = 0 → (∀ r ∈ rs, ¬(r = "")) →
      bids.length ≤ j + 2 * (rs.length - 1) →
      (processItems bids (goodShape rs) j acc).2 = true := by
  intro rs
  induction rs with
  | nil =>
    intro j acc hne
    exact absurd rfl hne
  | cons r rs' ih =>
    intro j acc _ hj hne hlen
    have hr : (r == "") = false := by
      cases hrr : r == ""
      · rfl
      · exact absurd (eq_of_beq hrr) (hne r (List.mem_cons_self _ _))
    have hj2 : (j % 2 == 1) = false := by simp [hj]
    simp only [goodShape, processItems, hr, Bool.false_eq_true, if_false, hj2]
    cases hg : bids.get? j with
    | none => rfl
    | some email_id =>
      have hjlt : j < bids.length := by
        by_contra hge
        have hnone : bids.get? j = none := List.get?_eq_none.mpr (Nat.le_of_not_lt hge)
        rw [hnone] at hg
        cases hg
      have hrs' : rs' ≠ [] := by
        intro hc
        subst hc
        simp at hlen
        omega
      have hpos : 1 ≤ rs'.length := List.length_pos.mpr hrs'
      have := ih (j + 2) (dinsert email_id r acc) hrs' (by omega)
        (fun x hx => hne x (List.mem_cons_of_mem _ hx)) (by simp at hlen ⊢; omega)
      simpa [processItems] using this

theorem process_batch_complete (fb : List String → Option (String × List FItem))
    (fo : String → Option (String × Option String)) (bids : List String)
    (acc : List (String × String))
    (hfb : ∃ raws, raws.length = bids.length ∧ (∀ r ∈ raws, ¬(r = ""))
      ∧ fb bids = some ("OK", goodShape raws))
    (hfo : ∀ id ∈ bids, ∃ raw, ¬(raw = "") ∧ fo id = some ("OK", some raw))
    (a : String) :
    a ∈ keys (process_batch fb fo bids acc) ↔ a ∈ keys acc ∨ a ∈ bids := by
  obtain ⟨raws, hlen, hne, hfbe⟩ := hfb
  match bids, raws, hlen with
  | [], [], _ =>
    simp [process_batch, hfbe, goodShape]
  | [x], [r], _ =>
    have hr : (r == "") = false := by
      cases hrr : r == ""
      · rfl
      · exact absurd (eq_of_beq hrr) (hne r (List.mem_cons_self _ _))
    simp only [process_batch, hfbe, goodShape, processItems, hr, Bool.false_eq_true,
      if_false, List.isEmpty_cons, Bool.not_false, Bool.and_true, beq_self_eq_true,
      if_true]
    rw [show (([(x : String)].get? (if 0 % 2 == 1 then 0 / 2 else 0))) = some x from rfl]
    simp only [processItems]
    rw [mem_keys_dinsert]
    simp only [List.mem_singleton]
    tauto
  | x :: y :: rest', raws, hlen =>
    have hraws : raws ≠ [] := by
      intro hc
      subst hc
      simp at hlen
    have hsnd : (processItems (x :: y :: rest') (goodShape raws) 0 acc).2 = true := by
      apply processItems_goodShape_raises _ raws 0 acc hraws rfl hne
      have h2 : 2 ≤ raws.length := by
        rw [hlen, List.length_cons, List.length_cons]
        omega
      simp only [List.length_cons, ← hlen]
      omega
    rcases hp : processItems (x :: y :: rest') (goodShape raws) 0 acc with ⟨acc', b⟩
    have hb : b = true := by
      rw [hp] at hsnd
      exact hsnd
    subst hb
    have hshape : goodShape raws ≠ [] := by
      rcases raws with _ | ⟨r, rs⟩
      · exact absurd rfl hraws
      · simp [goodShape]
    have hcond : (("OK" : String) == "OK" && !(goodShape raws).isEmpty) = true := by
      rcases raws with _ | ⟨r, rs⟩
      · exact absurd rfl hraws
      · simp [goodShape]
    simp only [process_batch, hfbe, hcond, if_true, hp]
    rw [fetch_individual_complete fo (x :: y :: rest') acc' a hfo]
    constructor
    · intro h
      rcases h with hin | hin
      · have : a ∈ keys (processItems (x :: y :: rest') (goodShape raws) 0 acc).1 := by
          rw [hp]
          exact hin
        exact processItems_subset _ _ _ _ _ this
      · exact Or.inr hin
    · intro h
      rcases h with hin | hin
      · refine Or.inl ?_
        have := processItems_mono (x :: y :: rest') (goodShape raws) 0 acc a hin
        rw [hp] at this
        exact this
      · exact Or.inr hin

end ProtonEmail

namespace ProtonEmail

theorem process_batch_subset (fb : List String → Option (String × List FItem))
    (fo : String → Option (String × Option String)) (bids : List String)
    (acc : List (String × String)) (a : String)
    (h : a ∈ keys (process_batch fb fo bids acc)) : a ∈ keys acc ∨ a ∈ bids := by
  unfold process_batch at h
  match hfb : fb bids with
  | none =>
    simp only [hfb] at h
    exact fetch_individual_subset fo bids acc a h
  | some (status, items) =>
    simp only [hfb] at h
    by_cases hc : (status == "OK" && !items.isEmpty) = true
    · rw [if_pos hc] at h
      rcases hp : processItems bids items 0 acc with ⟨acc', b⟩
      rw [hp] at h
      cases b
      · have h' : a ∈ keys acc' := h
        exact processItems_subset bids items 0 acc a (by rw [hp]; exact h')
      · have h' : a ∈ keys (fetch_individual fo bids acc') := h
        rcases fetch_individual_subset fo bids acc' a h' with hin | hin
        · exact processItems_subset bids items 0 acc a (by rw [hp]; exact hin)
        · exact Or.inr hin
    · rw [if_neg hc] at h
      exact Or.inl h

theorem fold_batches_subset (fb : List String → Option (String × List FItem))
    (fo : String → Option (String × Option String)) :
    ∀ (chunks : List (List String)) (acc : List (String × String)) (a : String),
      a ∈ keys (chunks.foldl (fun acc b => process_batch fb fo b acc) acc) →
      a ∈ keys acc ∨ ∃ b ∈ chunks, a ∈ b := by
  intro chunks
  induction chunks with
  | nil =>
    intro acc a h
    exact Or.inl h
  | cons c rest ih =>
    intro acc a h
    rw [List.foldl_cons] at h
    rcases ih _ a h with hin | ⟨b, hb, hab⟩
    · rcases process_batch_subset fb fo c acc a hin with h1 | h1
      · exact Or.inl h1
      · exact Or.inr ⟨c, List.mem_cons_self _ _, h1⟩
    · exact Or.inr ⟨b, List.mem_cons_of_mem _ hb, hab⟩

theorem fold_batches_complete (fb : List String → Option (String × List FItem))
    (fo : String → Option (String × Option String)) :
    ∀ (chunks : List (List String)) (acc : List (String × String)) (a : String),
      (∀ b ∈ chunks,
        (∃ raws, raws.length = b.length ∧ (∀ r ∈ raws, ¬(r = ""))
          ∧ fb b = some ("OK", goodShape raws))
        ∧ (∀ id ∈ b, ∃ raw, ¬(raw = "") ∧ fo id = some ("OK", some raw))) →
      (a ∈ keys (chunks.foldl (fun acc b => process_batch fb fo b acc) acc) ↔
        a ∈ keys acc ∨ ∃ b ∈ chunks, a ∈ b) := by
  intro chunks
  induction chunks with
  | nil =>
    intro acc a _
    simp
  | cons c rest ih =>
    intro acc a hgood
    rw [List.foldl_cons,
      ih _ a (fun b hb => hgood b (List.mem_cons_of_mem _ hb)),
      process_batch_complete fb fo c acc (hgood c (List.mem_cons_self _ _)).1
        (hgood c (List.mem_cons_self _ _)).2 a]
    constructor
    · intro h
      rcases h with (hin | hin) | ⟨b, hb, hab⟩
      · exact Or.inl hin
      · exact Or.inr ⟨c, List.mem_cons_self _ _, hin⟩
      · exact Or.inr ⟨b, List.mem_cons_of_mem _ hb, hab⟩
    · intro h
      rcases h with hin | ⟨b, hb, hab⟩
      · exact Or.inl (Or.inl hin)
      · rcases List.mem_cons.mp hb with rfl | hb'
        · exact Or.inl (Or.inr hab)
        · exact Or.inr ⟨b, hb', hab⟩

theorem chunksGo_flatten (n : Nat) (hn : 1 ≤ n) :
    ∀ (fuel : Nat) (l : List String), l.length ≤ fuel →
      (chunksGo n fuel l).flatten = l := by
  intro fuel
  induction fuel with
  | zero =>
    intro l hl
    have : l = [] := List.eq_nil_of_length_eq_zero (Nat.le_zero.mp hl)
    subst this
    rfl
  | succ fuel ih =>
    intro l hl
    match l with
    | [] => rfl
    | x :: xs =>
      simp only [chunksGo, List.flatten_cons]
      rw [ih ((x :: xs).drop n) (by rw [List.length_drop]; simp at hl ⊢; omega)]
      exact List.take_append_drop n (x :: xs)

theorem chunksOf_flatten (n : Nat) (hn : 1 ≤ n) (l : List String) :
    (chunksOf n l).flatten = l :=
  chunksGo_flatten n hn l.length l le_rfl

/-- Claim C6: for every id list and batch size at least 1, the key set of
the `get_bulk_emails` result is contained in the input ids; and when the
mailbox selection succeeds and every underlying fetch succeeds — every
batched fetch returns status OK with a well-formed one-record-per-id
response, and every single-id fallback fetch returns status OK with
non-empty data — the key set is exactly the input ids. -/
theorem get_bulk_emails_keys (selectOK : Bool)
    (fb : List String → Option (String × List FItem))
    (fo : String → Option (String × Option String))
    (email_ids : List String) (batch_size : Nat) (hbs : 1 ≤ batch_size) :
    (∀ a ∈ keys (get_bulk_emails selectOK fb fo email_ids batch_size), a ∈ email_ids)
    ∧ (selectOK = true →
        (∀ b ∈ chunksOf batch_size email_ids, ∃ raws, raws.length = b.length
          ∧ (∀ r ∈ raws, ¬(r = "")) ∧ fb b = some ("OK", goodShape raws)) →
        (∀ id ∈ email_ids, ∃ raw, ¬(raw = "") ∧ fo id = some ("OK", some raw)) →
        ∀ a, a ∈ keys (get_bulk_emails selectOK fb fo email_ids batch_size)
          ↔ a ∈ email_ids) := by
  constructor
  · intro a h
    unfold get_bulk_emails at h
    by_cases he : email_ids.isEmpty = true
    · rw [if_pos he] at h
      cases h
    · rw [if_neg he] at h
      cases selectOK
      · rw [if_neg (by simp)] at h
        cases h
      · rw [if_pos rfl] at h
        rcases fold_batches_subset fb fo _ [] a h with hin | ⟨b, hb, hab⟩
        · cases hin
        · rw [← chunksOf_flatten batch_size hbs email_ids]
          exact List.mem_flatten.mpr ⟨b, hb, hab⟩
  · intro hsel hfb hfo a
    subst hsel
    unfold get_bulk_emails
    by_cases he : email_ids.isEmpty = true
    · rw [if_pos he]
      have hnil : email_ids = [] := List.isEmpty_iff.mp he
      simp [keys, hnil]
    · rw [if_neg he, if_pos rfl]
      rw [fold_batches_complete fb fo (chunksOf batch_size email_ids) [] a
        (fun b hb => ⟨hfb b hb, fun id hid => hfo id (by
          rw [← chunksOf_flatten batch_size hbs email_ids]
          exact List.mem_flatten.mpr ⟨b, hb, hid⟩)⟩)]
    -- the initial accumulator is empty, so only chunk membership remains
      constructor
      · intro h
        rcases h with hin | ⟨b, hb, hab⟩
        · cases hin
        · rw [← chunksOf_flatten batch_size hbs email_ids]
          exact List.mem_flatten.mpr ⟨b, hb, hab⟩
      · intro h
        refine Or.inr ?_
        rw [← chunksOf_flatten batch_size hbs email_ids] at h
        exact List.mem_flatten.mp h

/-- A transport on which every batched fetch succeeds with the well-formed
response shape (used by the C6 witness). -/
def goodFB : List String → Option (String × List FItem) :=
  fun b => some ("OK", goodShape (b.map (fun _ => "raw")))

/-- A transport on which every single-id fetch succeeds (used by the C6
witness). -/
def goodFO : String → Option (String × Option String) :=
  fun _ => some ("OK", some "raw")

/-- Witness for C6 at a concrete id list and batch size. -/
theorem get_bulk_emails_keys_witness :
    1 ≤ 2 ∧ (∀ a, a ∈ keys (get_bulk_emails true goodFB goodFO ["1", "2", "3"] 2)
      ↔ a ∈ ["1", "2", "3"]) :=
  ⟨by decide,
    (get_bulk_emails_keys true goodFB goodFO ["1", "2", "3"] 2 (by decide)).2 rfl
      (fun b _ => ⟨b.map (fun _ => "raw"), by simp,
        (by
          intro r hr
          rcases List.mem_map.mp hr with ⟨x, _, rfl⟩
          decide), rfl⟩)
      (fun id _ => ⟨"raw", by decide, rfl⟩)⟩

end ProtonEmail

namespace ProtonEmail

/-! ## Bulk mutator

Embeds `bulk_move_emails`, `bulk_mark_emails` and `bulk_delete_emails`.
Each method owns one IMAP session; the session is modelled by an oracle
answering each protocol call (given the calls already issued) with `none`
for a raised exception or `some b` for a response whose status is OK iff
`b`.  The calls whose status the source never inspects and whose
exceptions it does not catch inside the session body (expunge, close,
logout) are modelled as never raising.  Every embedded method returns both
its Python result dict and the trace of protocol calls it issued, in
order.  Exception texts (`str(e)`) are abstracted to the fixed string
"exception". -/

inductive Call where
  | select (mb : String)
  | copy (ids : String) (target : String)
  | store (ids : String) (op : String) (flag : String)
  | expunge
  | close
  | logout
deriving DecidableEq, Repr

def Oracle := List Call → Call → Option Bool

structure MoveResult where
  moved : Nat
  failed : Nat
  total : Option Nat := none
  details : Option (List String) := none
  error : Option String := none
deriving DecidableEq, Repr

structure MoveState where
  moved : Nat
  failed : Nat
  details : List String
  trace : List Call
deriving DecidableEq, Repr

/-- One iteration of the per-id loop of `bulk_move_emails` taken when the
batched copy returned a non-OK status (this variant records a detail line
for a non-OK individual copy). -/
def move_step_a (o : Oracle) (target : String) (st : MoveState)
    (email_id : String) : MoveState :=
  let t1 := st.trace ++ [Call.copy email_id target]
  match o st.trace (Call.copy email_id target) with
  | none =>
    { st with failed := st.failed + 1,
              details := st.details ++ ["Error moving email " ++ email_id ++ ": exception"],
              trace := t1 }
  | some true =>
    let t2 := t1 ++ [Call.store email_id "+FLAGS" "\\Deleted"]
    match o t1 (Call.store email_id "+FLAGS" "\\Deleted") with
    | none =>
      { st with failed := st.failed + 1,
                details := st.details ++ ["Error moving email " ++ email_id ++ ": exception"],
                trace := t2 }
    | some _ => { st with moved := st.moved + 1, trace := t2 }
  | some false =>
    { st with failed := st.failed + 1,
              details := st.details ++ ["Failed to move email " ++ email_id],
              trace := t1 }

/-- One iteration of the per-id loop of `bulk_move_emails` taken when the
batched copy (or the batched store) raised (this variant records no detail
line for a non-OK individual copy). -/
def move_step_b (o : Oracle) (target : String) (st : MoveState)
    (email_id : String) : MoveState :=
  let t1 := st.trace ++ [Call.copy email_id target]
  match o st.trace (Call.copy email_id target) with
  | none =>
    { st with failed := st.failed + 1,
              details := st.details ++ ["Error moving email " ++ email_id ++ ": exception"],
              trace := t1 }
  | some true =>
    let t2 := t1 ++ [Call.store email_id "+FLAGS" "\\Deleted"]
    match o t1 (Call.store email_id "+FLAGS" "\\Deleted") with
    | none =>
      { st with failed := st.failed + 1,
                details := st.details ++ ["Error moving email " ++ email_id ++ ": exception"],
                trace := t2 }
    | some _ => { st with moved := st.moved + 1, trace := t2 }
  | some false =>
    { st with failed := st.failed + 1, trace := t1 }

def move_indiv_a (o : Oracle) (target : String) (bids : List String)
    (st : MoveState) : MoveState :=
  bids.foldl (move_step_a o target) st

def move_indiv_b (o : Oracle) (target : String) (bids : List String)
    (st : MoveState) : MoveState :=
  bids.foldl (move_step_b o target) st

/-- One batch of `bulk_move_emails`: batched copy, then batched store on
success (its status unchecked, its exception degrading to the fallback);
a non-OK copy runs the detail-recording per-id loop, a raised copy the
other one. -/
def move_batch (o : Oracle) (target : String) (bids : List String)
    (batch_num : Nat) (st : MoveState) : MoveState :=
  let id_list := String.intercalate "," bids
  let t1 := st.trace ++ [Call.copy id_list target]
  match o st.trace (Call.copy id_list target) with
  | some true =>
    let t2 := t1 ++ [Call.store id_list "+FLAGS" "\\Deleted"]
    match o t1 (Call.store id_list "+FLAGS" "\\Deleted") with
    | none => move_indiv_b o target bids { st with trace := t2 }
    | some _ =>
      { st with moved := st.moved + bids.length,
                details := st.details ++ ["Successfully moved batch " ++ toString batch_num
                  ++ ": " ++ toString bids.length ++ " emails"],
                trace := t2 }
  | some false => move_indiv_a o target bids { st with trace := t1 }
  | none => move_indiv_b o target bids { st with trace := t1 }

/-- Embedding of `bulk_move_emails`: select, chunked copy-and-mark with
per-id degradation, then one expunge iff any message was moved, then
close and logout. -/
def bulk_move_emails (o : Oracle) (email_ids : List String)
    (target_folder source_folder : String) (batch_size : Nat) :
    MoveResult × List Call :=
  if email_ids.isEmpty then
    ({ moved := 0, failed := 0, details := some [] }, [])
  else
    match o [] (Call.select source_folder) with
    | none =>
      ({ moved := 0, failed := email_ids.length, error := some "exception" },
        [Call.select source_folder, Call.logout])
    | some false =>
      ({ moved := 0, failed := email_ids.length,
         error := some ("Failed to select source folder: " ++ source_folder) },
        [Call.select source_folder, Call.logout])
    | some true =>
      let st0 : MoveState :=
        { moved := 0, failed := 0, details := [], trace := [Call.select source_folder] }
      let stF := (chunksOf batch_size email_ids).enum.foldl
        (fun st p => move_batch o target_folder p.2 (p.1 + 1) st) st0
      let trace2 := if stF.moved > 0 then stF.trace ++ [Call.expunge] else stF.trace
      ({ moved := stF.moved, failed := stF.failed, total := some email_ids.length,
         details := some (stF.details.take 10) },
        trace2 ++ [Call.close, Call.logout])

structure MarkResult where
  marked : Nat
  failed : Nat
  total : Option Nat := none
  error : Option String := none
deriving DecidableEq, Repr

structure MarkState where
  marked : Nat
  failed : Nat
  trace : List Call
deriving DecidableEq, Repr

/-- The per-id fallback of `bulk_mark_emails` (its two textually separate
fallback loops are behaviourally identical). -/
def mark_indiv (o : Oracle) (flag_action flag : String) (bids : List String)
    (st : MarkState) : MarkState :=
  bids.foldl (fun st email_id =>
    let t1 := st.trace ++ [Call.store email_id flag_action flag]
    match o st.trace (Call.store email_id flag_action flag) with
    | some true => { st with marked := st.marked + 1, trace := t1 }
    | some false => { st with failed := st.failed + 1, trace := t1 }
    | none => { st with failed := st.failed + 1, trace := t1 }) st

def mark_batch (o : Oracle) (flag_action flag : String) (bids : List String)
    (st : MarkState) : MarkState :=
  let id_list := String.intercalate "," bids
  let t1 := st.trace ++ [Call.store id_list flag_action flag]
  match o st.trace (Call.store id_list flag_action flag) with
  | some true => { st with marked := st.marked + bids.length, trace := t1 }
  | some false => mark_indiv o flag_action flag bids { st with trace := t1 }
  | none => mark_indiv o flag_action flag bids { st with trace := t1 }

/-- Embedding of `bulk_mark_emails`. -/
def bulk_mark_emails (o : Oracle) (email_ids : List String) (flag : String)
    (action : String) (mailbox : String) (batch_size : Nat) :
    MarkResult × List Call :=
  if email_ids.isEmpty then
    ({ marked := 0, failed := 0 }, [])
  else
    match o [] (Call.select mailbox) with
    | none =>
      ({ marked := 0, failed := email_ids.length, error := some "exception" },
        [Call.select mailbox, Call.logout])
    | some false =>
      ({ marked := 0, failed := email_ids.length,
         error := some ("Failed to select mailbox: " ++ mailbox) },
        [Call.select mailbox, Call.logout])
    | some true =>
      let flag_action := if action == "add" then "+FLAGS" else "-FLAGS"
      let st0 : MarkState := { marked := 0, failed := 0, trace := [Call.select mailbox] }
      let stF := (chunksOf batch_size email_ids).foldl
        (fun st b => mark_batch o flag_action flag b st) st0
      ({ marked := stF.marked, failed := stF.failed, total := some email_ids.length },
        stF.trace ++ [Call.close, Call.logout])

/-- The two result shapes of `bulk_delete_emails`. -/
inductive DeleteResult where
  | trash (r : MoveResult) (trace : List Call)
  | perm (deleted : Nat) (failed : Nat) (mark_trace : List Call) (expunge_trace : List Call)
deriving DecidableEq, Repr

/-- Embedding of `bulk_delete_emails`.  The permanent branch delegates to
`bulk_mark_emails` and then opens a second session just for the expunge;
that session has no exception handler around its select, so a raised
select escapes the method, modelled by `none`.  The non-permanent branch
is a plain delegation to `bulk_move_emails` towards the Trash folder with
both defaults (batch size 100). -/
def bulk_delete_emails (o : Oracle) (email_ids : List String) (mailbox : String)
    (permanent : Bool) : Option DeleteResult :=
  if permanent then
    let p := bulk_mark_emails o email_ids "\\Deleted" "add" mailbox 100
    if p.1.marked > 0 then
      match o [] (Call.select mailbox) with
      | none => none
      | some true =>
        some (.perm p.1.marked p.1.failed p.2
          [Call.select mailbox, Call.expunge, Call.close, Call.logout])
      | some false =>
        some (.perm p.1.marked p.1.failed p.2 [Call.select mailbox, Call.logout])
    else
      some (.perm p.1.marked p.1.failed p.2 [])
  else
    some (.trash (bulk_move_emails o email_ids "Trash" mailbox 100).1
      (bulk_move_emails o email_ids "Trash" mailbox 100).2)

/-- Claim C7: `bulk_delete_emails` with `permanent=False` is exactly
`bulk_move_emails` of the same identifiers to the Trash folder from the
same mailbox, with the same default batch size: identical counts, details
and protocol trace. -/
theorem bulk_delete_delegates_to_move (o : Oracle) (email_ids : List String)
    (mailbox : String) :
    bulk_delete_emails o email_ids mailbox false =
      some (DeleteResult.trash (bulk_move_emails o email_ids "Trash" mailbox 100).1
        (bulk_move_emails o email_ids "Trash" mailbox 100).2) := rfl

end ProtonEmail

namespace ProtonEmail

def isExpunge : Call → Bool
  | .expunge => true
  | _ => false

def isMutation : Call → Bool
  | .copy _ _ => true
  | .store _ _ _ => true
  | _ => false

def countExpunge (t : List Call) : Nat := (t.filter isExpunge).length

def countMutation (t : List Call) : Nat := (t.filter isMutation).length

theorem countExpunge_append (t u : List Call) :
    countExpunge (t ++ u) = countExpunge t + countExpunge u := by
  simp [countExpunge, List.filter_append]

theorem countExpunge_move_step_a (o : Oracle) (target : String) (st : MoveState)
    (email_id : String) :
    countExpunge (move_step_a o target st email_id).trace = countExpunge st.trace := by
  unfold move_step_a
  cases h1 : o st.trace (Call.copy email_id target) with
  | none => simp [h1, countExpunge, isExpunge, List.filter_append]
  | some b =>
    cases b
    · simp [h1, countExpunge, isExpunge, List.filter_append]
    · cases h2 : o (st.trace ++ [Call.copy email_id target])
          (Call.store email_id "+FLAGS" "\\Deleted") with
      | none => simp [h1, h2, countExpunge, isExpunge, List.filter_append]
      | some c => simp [h1, h2, countExpunge, isExpunge, List.filter_append]

theorem countExpunge_move_step_b (o : Oracle) (target : String) (st : MoveState)
    (email_id : String) :
    countExpunge (move_step_b o target st email_id).trace = countExpunge st.trace := by
  unfold move_step_b
  cases h1 : o st.trace (Call.copy email_id target) with
  | none => simp [h1, countExpunge, isExpunge, List.filter_append]
  | some b =>
    cases b
    · simp [h1, countExpunge, isExpunge, List.filter_append]
    · cases h2 : o (st.trace ++ [Call.copy email_id target])
          (Call.store email_id "+FLAGS" "\\Deleted") with
      | none => simp [h1, h2, countExpunge, isExpunge, List.filter_append]
      | some c => simp [h1, h2, countExpunge, isExpunge, List.filter_append]

theorem countExpunge_move_indiv_a (o : Oracle) (target : String)
    (bids : List String) (st : MoveState) :
    countExpunge (move_indiv_a o target bids st).trace = countExpunge st.trace := by
  induction bids generalizing st with
  | nil => rfl
  | cons email_id rest ih =>
    simp only [move_indiv_a, List.foldl_cons] at ih ⊢
    rw [ih, countExpunge_move_step_a]

theorem countExpunge_move_indiv_b (o : Oracle) (target : String)
    (bids : List String) (st : MoveState) :
    countExpunge (move_indiv_b o target bids st).trace = countExpunge st.trace := by
  induction bids generalizing st with
  | nil => rfl
  | cons email_id rest ih =>
    simp only [move_indiv_b, List.foldl_cons] at ih ⊢
    rw [ih, countExpunge_move_step_b]

theorem countExpunge_move_batch (o : Oracle) (target : String)
    (bids : List String) (batch_num : Nat) (st : MoveState) :
    countExpunge (move_batch o target bids batch_num st).trace = countExpunge st.trace := by
  unfold move_batch
  cases h1 : o st.trace (Call.copy (String.intercalate "," bids) target) with
  | none =>
    simp only [h1]
    rw [countExpunge_move_indiv_b]
    simp [countExpunge, isExpunge, List.filter_append]
  | some b =>
    cases b
    · simp only [h1]
      rw [countExpunge_move_indiv_a]
      simp [countExpunge, isExpunge, List.filter_append]
    · cases h2 : o (st.trace ++ [Call.copy (String.intercalate "," bids) target])
          (Call.store (String.intercalate "," bids) "+FLAGS" "\\Deleted") with
      | none =>
        simp only [h1, h2]
        rw [countExpunge_move_indiv_b]
        simp [countExpunge, isExpunge, List.filter_append]
      | some c =>
        simp [h1, h2, countExpunge, isExpunge, List.filter_append]

theorem countExpunge_fold_move (o : Oracle) (target : String) :
    ∀ (l : List (Nat × List String)) (st : MoveState),
      countExpunge ((l.foldl (fun st p => move_batch o target p.2 (p.1 + 1) st) st).trace)
        = countExpunge st.trace := by
  intro l
  induction l with
  | nil =>
    intro st
    rfl
  | cons p rest ih =>
    intro st
    rw [List.foldl_cons, ih, countExpunge_move_batch]

/-- Claim C8: in every `bulk_move_emails` call the protocol trace splits
into a pre-part free of expunge (the per-chunk loop and the select), then
exactly one expunge iff at least one message was moved (zero if none),
then a post-part (close and logout) that contains neither an expunge nor
any copy or store: expunge is never issued inside the per-chunk loop and
at most once per top-level call, after all chunks. -/
theorem bulk_move_expunge_once (o : Oracle) (email_ids : List String)
    (target_folder source_folder : String) (batch_size : Nat) :
    ∃ pre post,
      (bulk_move_emails o email_ids target_folder source_folder batch_size).2 =
        pre ++ (if 0 < (bulk_move_emails o email_ids target_folder source_folder batch_size).1.moved
                then [Call.expunge] else []) ++ post
        ∧ countExpunge pre = 0 ∧ countExpunge post = 0 ∧ countMutation post = 0 := by
  unfold bulk_move_emails
  by_cases he : email_ids.isEmpty = true
  · rw [if_pos he]
    exact ⟨[], [], by simp, rfl, rfl, rfl⟩
  · rw [if_neg he]
    cases hsel : o [] (Call.select source_folder) with
    | none =>
      simp only [hsel]
      refine ⟨[Call.select source_folder], [Call.logout], ?_, ?_, ?_, ?_⟩ <;>
        simp [countExpunge, countMutation, isExpunge, isMutation]
    | some b =>
      cases b
      · simp only [hsel]
        refine ⟨[Call.select source_folder], [Call.logout], ?_, ?_, ?_, ?_⟩ <;>
          simp [countExpunge, countMutation, isExpunge, isMutation]
      · simp only [hsel]
        refine ⟨((chunksOf batch_size email_ids).enum.foldl
            (fun st p => move_batch o target_folder p.2 (p.1 + 1) st)
            { moved := 0, failed := 0, details := [],
              trace := [Call.select source_folder] }).trace,
          [Call.close, Call.logout], ?_, ?_, ?_, ?_⟩
        · by_cases hm : 0 < ((chunksOf batch_size email_ids).enum.foldl
              (fun st p => move_batch o target_folder p.2 (p.1 + 1) st)
              { moved := 0, failed := 0, details := [],
                trace := [Call.select source_folder] }).moved
          · rw [if_pos hm, if_pos hm, List.append_assoc]
          · rw [if_neg hm, if_neg hm]
            simp
        · rw [countExpunge_fold_move]
          rfl
        · rfl
        · rfl

end ProtonEmail
